import Mathlib

/-!
Shallow embedding of the `Consoler` command-routing core
(`src/lib/consoler.js` of sapphirejs/consoler).

The engine works on already-decomposed commands: the spec's Tokenizer and
Flag Decomposer are external collaborators whose output shape is
`{ positional : ordered sequence of string, flags : mapping from flag name
to raw value }`.  The embedding therefore starts at the `ParsedCommand`
level and models the core functions `match`, `parse`, `_parseArguments`,
`_parseOptions`, `_parsePlaceholders`, `_typeSupported`, `_checkType`,
`_cast` and `_isNumber` faithfully, including the JavaScript value
conversions (truthiness, `parseFloat`, `Number`, `String`, `split`,
`trim`) they rely on.

JavaScript numbers are modelled as exact rationals plus the special
values NaN and plus/minus Infinity.  Double rounding and overflow are not
modelled; none of the verified properties depends on them (the
conversions below are only applied to short decimal literals and to the
special values, where the rational model and IEEE doubles agree).
-/

namespace Consoler

/-- An exact rational value, kept in lowest terms with a positive
denominator by construction (every value is built through `mkQ` or has
denominator 1), so that structural equality coincides with value
equality on all values the engine produces.  A hand-rolled type is used
instead of Mathlib's `ℚ` so that every operation is structurally
recursive and therefore evaluates inside the kernel (`rfl` / `decide`
on concrete inputs). -/
structure Q where
  num : ℤ
  den : ℕ
deriving DecidableEq, Repr

/-- Fuel-based Euclidean gcd (structural recursion on the fuel; the
first argument strictly decreases, so `m + 1` fuel always suffices). -/
def fgcd : ℕ → ℕ → ℕ → ℕ
  | 0, _, n => n
  | _ + 1, 0, n => n
  | f + 1, m, n => fgcd f (n % m) m

/-- Greatest common divisor via `fgcd`. -/
def ngcd (m n : ℕ) : ℕ := fgcd (m + 1) m n

/-- Build a reduced rational from a numerator and a (positive)
denominator. -/
def mkQ (n : ℤ) (d : ℕ) : Q :=
  if d = 0 then ⟨0, 0⟩
  else
    let g := ngcd n.natAbs d
    ⟨n / (g : ℤ), d / g⟩

/-- The integer `n` as a `Q`. -/
def qInt (n : ℤ) : Q := ⟨n, 1⟩

/-- Negation on `Q` (keeps the representation reduced). -/
def qNeg (q : Q) : Q := ⟨-q.num, q.den⟩

/-- A JavaScript number: a finite value (exact rational), NaN, or a
signed infinity. -/
inductive JNum where
  | val (q : Q)
  | nan
  | inf
  | neginf
deriving DecidableEq, Repr

/-- A JavaScript value as it can reach the consoler core: a string, a
number, a boolean, an array of values (repeated flags), or `undefined`
(missing property lookups).  `null` never reaches the core. -/
inductive JVal where
  | str (s : String)
  | num (n : JNum)
  | bool (b : Bool)
  | arr (elems : List JVal)
  | undefined
deriving Repr

/-- The two error classes thrown by the core (`MissingArgument`,
`InvalidOption`), plus the runtime `TypeError` that JavaScript itself
raises when a method is called on a value that lacks it. -/
inductive CErr where
  | missingArgument
  | invalidOption
  | typeError
deriving DecidableEq, Repr

/-! ### JavaScript string primitives -/

/-- JavaScript whitespace as relevant to `trim`, `parseFloat` and
`Number` (ASCII subset; the core never sees non-ASCII whitespace). -/
def wsChar (c : Char) : Bool :=
  c = ' ' || c = '\t' || c = '\n' || c = '\r' || c = '\x0b' || c = '\x0c'

/-- `String.prototype.trim`. -/
def trimWs (s : String) : String :=
  String.mk (((s.data.dropWhile wsChar).reverse.dropWhile wsChar).reverse)

/-- `String.prototype.split(sep)` for a single-character separator, on
character lists.  Always returns at least one piece; pieces never
contain the separator. -/
def splitChar (sep : Char) : List Char → List (List Char)
  | [] => [[]]
  | c :: rest =>
    if c = sep then [] :: splitChar sep rest
    else
      match splitChar sep rest with
      | p :: ps => (c :: p) :: ps
      | [] => [[c]]

/-- The greedy capture of the regular expression `(.+)X` (for a closing
character `X`) starting right after an opening character: the longest
prefix of non-newline characters that is followed by `X`.  Returns
`none` when no such prefix of length at least one exists. -/
def greedyCapture (cl : Char) (rest : List Char) : Option (List Char) :=
  let run := rest.takeWhile (fun c => c ≠ '\n')
  match ((List.range run.length).filter
      (fun k => run.get? k = some cl && 1 ≤ k)).max? with
  | some k => some (run.take k)
  | none => none

/-- The capture of the first (leftmost) match of the unanchored regular
expression `\⟨op⟩(.+)\⟨cl⟩` — e.g. `\<(.+)\>` or `\[(.+)\]` — as
`String.prototype.match` computes it: leftmost starting position, greedy
`.+` (which matches anything except a newline, including further `op` /
`cl` characters). -/
def regexCapture (op cl : Char) : List Char → Option (List Char)
  | [] => none
  | c :: rest =>
    if c = op then
      match greedyCapture cl rest with
      | some cap => some cap
      | none => regexCapture op cl rest
    else regexCapture op cl rest

/-- Capture of `/\<(.+)\>/` on a string (used for required argument
patterns and for the bracketed-placeholder test). -/
def angleName (s : String) : Option String :=
  (regexCapture '<' '>' s.data).map String.mk

/-- Capture of `/\[(.+)\]/` on a string (optional argument patterns). -/
def squareName (s : String) : Option String :=
  (regexCapture '[' ']' s.data).map String.mk

/-- `/(.+):(.+)/.test(param)`: a colon with at least one non-newline
character immediately before and after it exists somewhere in the
string. -/
def keyValTest (cs : List Char) : Bool :=
  (List.range cs.length).any fun i =>
    cs.get? i = some ':' && 1 ≤ i &&
      (match cs.get? (i - 1) with
       | some c => c ≠ '\n'
       | none => false) &&
      (match cs.get? (i + 1) with
       | some c => c ≠ '\n'
       | none => false)

/-! ### JavaScript number parsing (`parseFloat` and `Number`) -/

/-- Digit characters folded into a natural value, as an integer. -/
def digitsVal (ds : List Char) : ℤ :=
  ds.foldl (fun acc c => 10 * acc + ((c.toNat - 48 : ℕ) : ℤ)) 0

/-- Parse the longest `StrDecimalLiteral` prefix (digits, optional
fraction, optional exponent) of a character list.  Returns the value
and the unconsumed remainder; `none` when no digit is found.  Mirrors
the grammar shared by `parseFloat` (prefix use) and `Number` (whole
string use): an `e` not followed by digits is not consumed. -/
def parseDecimal (cs : List Char) : Option (Q × List Char) :=
  let intPart := cs.takeWhile Char.isDigit
  let r1 := cs.dropWhile Char.isDigit
  let fracPart :=
    match r1 with
    | '.' :: rest => rest.takeWhile Char.isDigit
    | _ => []
  let r2 :=
    match r1 with
    | '.' :: rest => rest.dropWhile Char.isDigit
    | _ => r1
  if intPart = [] ∧ fracPart = [] then none
  else
    let mantNum : ℤ := digitsVal intPart * 10 ^ fracPart.length + digitsVal fracPart
    let mantDen : ℕ := 10 ^ fracPart.length
    let expRes : ℤ × List Char :=
      match r2 with
      | e :: rest =>
        if e = 'e' ∨ e = 'E' then
          let signRes : ℤ × List Char :=
            match rest with
            | '-' :: t => (-1, t)
            | '+' :: t => (1, t)
            | _ => (1, rest)
          let eDs := signRes.2.takeWhile Char.isDigit
          if eDs = [] then (0, r2)
          else (signRes.1 * digitsVal eDs, signRes.2.dropWhile Char.isDigit)
        else (0, r2)
      | [] => (0, [])
    if 0 ≤ expRes.1 then
      some (mkQ (mantNum * 10 ^ expRes.1.toNat) mantDen, expRes.2)
    else
      some (mkQ mantNum (mantDen * 10 ^ (-expRes.1).toNat), expRes.2)

/-- `parseFloat` on a character list: skip leading whitespace, optional
sign, then either the literal `Infinity` or the longest decimal-literal
prefix; NaN when no digits can be consumed. -/
def parseFloatL (cs : List Char) : JNum :=
  let cs1 := cs.dropWhile wsChar
  let neg : Bool := match cs1 with
    | '-' :: _ => true
    | _ => false
  let cs2 : List Char := match cs1 with
    | '-' :: rest => rest
    | '+' :: rest => rest
    | _ => cs1
  if List.isPrefixOf "Infinity".data cs2 then
    if neg then .neginf else .inf
  else
    match parseDecimal cs2 with
    | some (q, _) => .val (if neg then qNeg q else q)
    | none => .nan

/-- Hex / octal / binary digit value, `none` when the character is not a
digit of the given base. -/
def radixDigit (base : ℕ) (c : Char) : Option ℕ :=
  let v : ℕ :=
    if '0' ≤ c ∧ c ≤ '9' then c.toNat - 48
    else if 'a' ≤ c ∧ c ≤ 'f' then c.toNat - 87
    else if 'A' ≤ c ∧ c ≤ 'F' then c.toNat - 55
    else 99
  if v < base then some v else none

/-- Value of a non-empty digit string in the given base, `none` when a
character is out of range or the string is empty. -/
def radixVal (base : ℕ) (ds : List Char) : Option ℕ :=
  match ds with
  | [] => none
  | _ =>
    ds.foldl
      (fun acc c =>
        match acc, radixDigit base c with
        | some a, some v => some (base * a + v)
        | _, _ => none)
      (some 0)

/-- `Number(string)` (the `StringNumericLiteral` conversion): trim, empty
means `0`, otherwise the whole remaining string must be a signed decimal
literal, a signed `Infinity`, or an unsigned `0x`/`0o`/`0b` radix
literal; anything else is NaN. -/
def numberOfString (s : String) : JNum :=
  let t := ((s.data.dropWhile wsChar).reverse.dropWhile wsChar).reverse
  if t = [] then .val (qInt 0)
  else
    let hasSign : Bool := match t with
      | '-' :: _ => true
      | '+' :: _ => true
      | _ => false
    let neg : Bool := match t with
      | '-' :: _ => true
      | _ => false
    let u : List Char := match t with
      | '-' :: rest => rest
      | '+' :: rest => rest
      | _ => t
    if u = "Infinity".data then
      if neg then .neginf else .inf
    else
      match parseDecimal u with
      | some (q, []) => .val (if neg then qNeg q else q)
      | _ =>
        if hasSign then .nan
        else
          match t with
          | '0' :: x :: ds =>
            if x = 'x' ∨ x = 'X' then
              match radixVal 16 ds with
              | some n => .val (qInt n)
              | none => .nan
            else if x = 'o' ∨ x = 'O' then
              match radixVal 8 ds with
              | some n => .val (qInt n)
              | none => .nan
            else if x = 'b' ∨ x = 'B' then
              match radixVal 2 ds with
              | some n => .val (qInt n)
              | none => .nan
            else .nan
          | _ => .nan

/-! ### JavaScript value conversions -/

/-- `typeof value`. -/
def jsTypeof : JVal → String
  | .str _ => "string"
  | .num _ => "number"
  | .bool _ => "boolean"
  | .arr _ => "object"
  | .undefined => "undefined"

/-- Decimal rendering of a natural number, with explicit fuel so the
recursion is structural (the first argument strictly decreases through
division by 10, so `n + 1` fuel always suffices). -/
def natCharsCore : ℕ → ℕ → List Char → List Char
  | 0, _, acc => acc
  | fuel + 1, n, acc =>
    if n < 10 then Nat.digitChar n :: acc
    else natCharsCore fuel (n / 10) (Nat.digitChar (n % 10) :: acc)

/-- Decimal rendering of a natural number, as JavaScript renders it. -/
def natChars (n : ℕ) : List Char := natCharsCore (n + 1) n []

/-- Rendering of an integer, as JavaScript renders integral numbers. -/
def intChars (i : ℤ) : List Char :=
  if i < 0 then '-' :: natChars i.natAbs else natChars i.toNat

/-- Rendering of a finite JavaScript number.  Integers are rendered
exactly as JavaScript renders them; for non-integral values a
numerator-slash-denominator form stands in for the decimal rendering.
This rendering is only ever consulted for character-containment tests
(comma, angle bracket) and both renderings agree on those: a JavaScript
decimal number rendering never contains a comma or an angle bracket.
All numeric re-parsing of values (`parseFloat`, `Number`) is defined
case-wise below and never goes through this rendering. -/
def ratChars (q : Q) : List Char :=
  if q.den = 1 then intChars q.num
  else intChars q.num ++ '/' :: natChars q.den

/-- `Array.prototype.join(",")` over pre-rendered elements (the
rendering `String(array)` uses). -/
def joinComma : List (List Char) → List Char
  | [] => []
  | [x] => x
  | x :: y :: rest => x ++ ',' :: joinComma (y :: rest)

mutual
/-- `String(value)`: the JavaScript string conversion, on character
lists.  Arrays render as their elements joined with commas, with
`undefined` elements rendered as the empty string. -/
def jsToStrChars : JVal → List Char
  | .str s => s.data
  | .num (.val q) => ratChars q
  | .num .nan => "NaN".data
  | .num .inf => "Infinity".data
  | .num .neginf => "-Infinity".data
  | .bool true => "true".data
  | .bool false => "false".data
  | .undefined => "undefined".data
  | .arr xs => joinComma (arrElemsChars xs)

/-- Element renderings inside `Array.prototype.join`: `undefined`
renders as the empty string there. -/
def arrElemsChars : List JVal → List (List Char)
  | [] => []
  | x :: rest =>
    (match x with
     | .undefined => []
     | _ => jsToStrChars x) :: arrElemsChars rest
end

/-- `/,/.test(value)`: the comma test `_cast` performs, which coerces the
value to a string first. -/
def strHasComma (v : JVal) : Bool :=
  (jsToStrChars v).any (fun c => c = ',')

/-- JavaScript truthiness of a value (`if (value)`). -/
def jsTruthy : JVal → Bool
  | .str s => s ≠ ""
  | .num (.val q) => q.num ≠ 0
  | .num .nan => false
  | .num .inf => true
  | .num .neginf => true
  | .bool b => b
  | .arr _ => true
  | .undefined => false

/-- `Consoler._isNumber(value)`: `parseFloat(value)` is neither NaN nor
infinite.  `parseFloat` coerces its argument to a string first; each
case below is that composite:
strings parse directly; a finite number round-trips through its
rendering; NaN and the infinities render to `NaN` / `Infinity` which
parse back to themselves (not finite); booleans and `undefined` render
to words, which parse to NaN; an empty array renders to the empty
string (NaN); a non-empty array renders to its first element's
rendering followed by either nothing or a comma, and since a comma can
never be part of a numeric prefix, `parseFloat` sees exactly the first
element's rendering. -/
def _isNumber : JVal → Bool
  | .num (.val _) => true
  | .num _ => false
  | .str s =>
    match parseFloatL s.data with
    | .val _ => true
    | _ => false
  | .bool _ => false
  | .undefined => false
  | .arr [] => false
  | .arr (x :: _) => _isNumber x

/-- `Number(value)` (the `ToNumber` conversion) for the values reaching
`_cast`.  A one-element array converts via its element's string
rendering (`ToPrimitive`); for a number element that round-trips to the
number itself, and an `undefined` element renders to the empty string
(value `0`).  An array of two or more elements renders with a comma,
which no numeric literal contains, hence NaN. -/
def toNumber : JVal → JNum
  | .str s => numberOfString s
  | .num n => n
  | .bool true => .val (qInt 1)
  | .bool false => .val (qInt 0)
  | .undefined => .nan
  | .arr [] => .val (qInt 0)
  | .arr [.num n] => n
  | .arr [.undefined] => .val (qInt 0)
  | .arr [x] => numberOfString (String.mk (jsToStrChars x))
  | .arr _ => .nan

/-- The comma-free path of `Consoler._cast`: number check and
conversion, strict-equality boolean cases, string trimming, identity
otherwise. -/
def castScalar (v : JVal) : JVal :=
  if _isNumber v then .num (toNumber v)
  else
    match v with
    | .bool b => .bool b
    | .str s =>
      if s = "true" then .bool true
      else if s = "false" then .bool false
      else .str (trimWs s)
    | w => w

/-- `Consoler._cast(value)`.  When the string form of the value contains
a comma, the source calls `value.split(',')` and maps `_cast` over the
pieces: for a string the pieces are comma-free, so the recursive call
reduces to the comma-free path `castScalar`; for any non-string value
(an array, in practice) `.split` is not a function and JavaScript
throws a `TypeError`. -/
def _cast (v : JVal) : Except CErr JVal :=
  if strHasComma v then
    match v with
    | .str s =>
      .ok (.arr ((splitChar ',' s.data).map
        (fun piece => castScalar (.str (String.mk piece)))))
    | _ => .error .typeError
  else .ok (castScalar v)

/-- The value `_cast` produces on a string (on which it never fails):
the comma-split array, or the comma-free scalar path. -/
def castString (s : String) : JVal :=
  if strHasComma (.str s) then
    .arr ((splitChar ',' s.data).map
      (fun piece => castScalar (.str (String.mk piece))))
  else castScalar (.str s)

/-! ### Data model -/

/-- A decomposed command, the shape both the route template and the cli
invocation take after the Tokenizer / Flag Decomposer collaborators
(`_parseCommand`) have run: the first positional token as the command
name (`undefined` when there are no tokens), the remaining positionals,
and the flag map.  Flag values are raw strings or booleans as the
decomposer contract states; the map is modelled as an association list
whose lookup returns the first (most precedent) binding. -/
structure ParsedCommand where
  command : Option String
  arguments : List String
  options : List (String × JVal)
deriving Repr

/-- The result record built by `parse()`. -/
structure Command where
  command : Option String
  argument : List (String × String)
  option : List (String × JVal)
deriving Repr

/-- The structured form of one option placeholder
(`Consoler._parsePlaceholders` result).  The source names the last
field `_default` because `default` is reserved in its host language
too. -/
structure OptionSpec where
  name : Option String
  aliasName : Option String
  type : Option String
  defaultValue : Option String
deriving DecidableEq, Repr

/-- JavaScript object property assignment `obj[k] = v` for maps we only
ever observe through lookups: the newest binding for a key wins. -/
def objInsert (m : List (String × JVal)) (k : String) (v : JVal) :
    List (String × JVal) :=
  (k, v) :: m

/-! ### Matcher -/

/-- `Consoler.match()`: exact equality of the two command names
(`undefined === undefined` holds when both are absent). -/
def matchCmd (route cli : ParsedCommand) : Bool :=
  route.command == cli.command

/-! ### Argument binder (`Consoler._parseArguments`) -/

/-- One pass of the `forEach` in `_parseArguments`, walking the route
patterns and the cli positionals in lockstep (the i-th pattern sees the
i-th positional, `undefined` when the cli list is exhausted).

A pattern matching `/\<(.+)\>/` is required: a missing or empty cli
value (both falsy) throws `MissingArgument`, otherwise the raw value is
bound under the captured name.  Any other pattern takes the optional
branch: the key is the `/\[(.+)\]/` capture when there is one, else the
pattern itself, and the raw value is bound only when it is truthy
(present and non-empty). -/
def argStep (p : String) (v? : Option String) :
    Except CErr (Option (String × String)) :=
  match angleName p, v? with
  | some _, none => .error .missingArgument
  | some name, some v =>
    if v = "" then .error .missingArgument
    else .ok (some (name, v))
  | none, none => .ok none
  | none, some v =>
    if v = "" then .ok none
    else .ok (some ((squareName p).getD p, v))

/-- The walk itself: each route pattern is paired with the cli
positional at the same index (`undefined` once the cli list is
exhausted), bindings accumulate newest-first, and the first
`MissingArgument` aborts the walk (the thrown exception). -/
def parseArgumentsAux :
    List String → List String → List (String × String) →
    Except CErr (List (String × String))
  | [], _, acc => .ok acc
  | p :: ps, cli, acc =>
    match argStep p cli.head? with
    | .error e => .error e
    | .ok none => parseArgumentsAux ps cli.tail acc
    | .ok (some kv) => parseArgumentsAux ps cli.tail (kv :: acc)

/-- `Consoler._parseArguments(routeArguments, cliArguments)`. -/
def _parseArguments (routeArgs cliArgs : List String) :
    Except CErr (List (String × String)) :=
  parseArgumentsAux routeArgs cliArgs []

/-- The output key a route argument pattern binds: the required
capture, else the optional capture, else the pattern itself. -/
def argKey (p : String) : String :=
  match angleName p with
  | some n => n
  | none => (squareName p).getD p

/-! ### Placeholder grammar (`Consoler._parsePlaceholders`) -/

/-- The `forEach` over the `|`-separated parameter tokens of a bracketed
placeholder.  A token passing the `/(.+):(.+)/` test is split on `:`;
its first piece selects the `type` / `default` / `alias` field (the
second piece is the stored value, any further pieces are dropped), and
any other key throws `InvalidOption`.  A token failing the test is a
bare name and overwrites the `name` field. -/
def placeholderFold :
    List (List Char) → OptionSpec → Except CErr OptionSpec
  | [], res => .ok res
  | param :: rest, res =>
    if keyValTest param then
      match splitChar ':' param with
      | key :: value :: _ =>
        if key = "type".data then
          placeholderFold rest { res with type := some (String.mk value) }
        else if key = "default".data then
          placeholderFold rest { res with defaultValue := some (String.mk value) }
        else if key = "alias".data then
          placeholderFold rest { res with aliasName := some (String.mk value) }
        else .error .invalidOption
      | _ =>
        -- Unreachable: a token passing the key:value test contains a
        -- colon, so splitting on the colon yields at least two pieces.
        placeholderFold rest res
    else placeholderFold rest { res with name := some (String.mk param) }

/-- `Consoler._parsePlaceholders(template)`.  A string template passing
the `/\<(.+)\>/` test is sliced between its first and last character
and split on `|`; otherwise the option is a flag (`--opt`, parsed as
boolean `true`) or a bare value option (`--opt=`, parsed as the empty
string), and `typeof template` becomes the expected type.  A non-string
template whose string form passes the bracket test would die calling
`.split` on a non-string slice (only arrays can reach this, and only
for pathological route templates). -/
def _parsePlaceholders (template : JVal) : Except CErr OptionSpec :=
  match template with
  | .str s =>
    if (regexCapture '<' '>' s.data).isSome then
      placeholderFold (splitChar '|' ((s.data.drop 1).dropLast))
        { name := none, aliasName := none, type := none, defaultValue := none }
    else
      .ok { name := none, aliasName := none, type := some "string", defaultValue := none }
  | v =>
    if (regexCapture '<' '>' (jsToStrChars v)).isSome then .error .typeError
    else
      .ok { name := none, aliasName := none, type := some (jsTypeof v), defaultValue := none }

/-- The key of a placeholder parameter token: the piece before its
first colon (`param.split(':')[0]`). -/
def keyOf (param : List Char) : List Char :=
  match splitChar ':' param with
  | k :: _ => k
  | [] => []

/-- A parameter token in `key:value` shape whose key is none of the
three recognized placeholder keys (the tokens `_parsePlaceholders`
rejects). -/
def badToken (q : List Char) : Prop :=
  keyValTest q = true ∧
    keyOf q ∉ (["type".data, "default".data, "alias".data] : List (List Char))

/-- The last bare (non-`key:value`) parameter token of a placeholder's
token sequence, i.e. the one whose name wins the left-to-right
overwrites. -/
def lastBare : List (List Char) → Option (List Char)
  | [] => none
  | p :: rest =>
    match lastBare rest with
    | some q => some q
    | none => if keyValTest p then none else some p

/-! ### Option binder (`Consoler._parseOptions`) -/

/-- `Consoler._typeSupported(type)`. -/
def _typeSupported (t : String) : Bool :=
  (["string", "number", "array", "boolean"] : List String).contains t

/-- `Consoler._checkType(value, type)`: arrays are classified
structurally as `array`; every other value is compared through
`typeof`. -/
def _checkType (v : JVal) (t : String) : Bool :=
  match v with
  | .arr _ => t == "array"
  | _ => jsTypeof v == t

/-- `cliOptions[option] || cliOptions[alias]`: the flag lookup with its
truthiness-based alias fallback.  A missing property reads as
`undefined`.  When no alias is declared, `alias` is the value `null`,
and JavaScript property access coerces the key: `cliOptions[null]`
reads the property named `"null"` — that is, an invocation flag
literally called `--null` feeds the binder; absent such a flag the
read is `undefined`. -/
def effRaw (cliOptions : List (String × JVal)) (option : String)
    (aliasName : Option String) : JVal :=
  let a := (cliOptions.lookup option).getD .undefined
  if jsTruthy a then a
  else
    match aliasName with
    | some al => (cliOptions.lookup al).getD .undefined
    | none => (cliOptions.lookup "null").getD .undefined

/-- The output key of an option binding: `name || option` (a declared
non-empty placeholder name renames the binding, otherwise the raw flag
key is used). -/
def outKey (name : Option String) (option : String) : String :=
  match name with
  | some n => if n = "" then option else n
  | none => option

/-- The second half of the body of the
`for ... of Object.keys(routeOptions)` loop in `_parseOptions`, after
the placeholder has been parsed and the flag-or-alias value casted: a
falsy casted value takes the default branch (`if (_default)` binds the
casted default when it is truthy, otherwise the option is skipped); a
truthy casted value runs the two `type &&` guards — both skipped when
the declared type is falsy — and is then bound under `name ||
option`. -/
def bindOptionAfterCast (opts : List (String × JVal)) (option : String)
    (spec : OptionSpec) (cliOptValue : JVal) :
    Except CErr (List (String × JVal)) :=
  if !jsTruthy cliOptValue then
    match spec.defaultValue with
    | some d =>
      if d = "" then .ok opts
      else
        match _cast (.str d) with
        | .error e => .error e
        | .ok dv => .ok (objInsert opts (outKey spec.name option) dv)
    | none => .ok opts
  else
    match spec.type with
    | some t =>
      if t = "" then .ok (objInsert opts (outKey spec.name option) cliOptValue)
      else if !_typeSupported t then .error .invalidOption
      else if !_checkType cliOptValue t then .error .invalidOption
      else .ok (objInsert opts (outKey spec.name option) cliOptValue)
    | none => .ok (objInsert opts (outKey spec.name option) cliOptValue)

/-- The loop body proper: placeholder parse and value cast, then
`bindOptionAfterCast`; a thrown error propagates. -/
def bindOption (cliOptions : List (String × JVal))
    (opts : List (String × JVal)) (option : String) (routeOptValue : JVal) :
    Except CErr (List (String × JVal)) :=
  match _parsePlaceholders routeOptValue with
  | .error e => .error e
  | .ok spec =>
    match _cast (effRaw cliOptions option spec.aliasName) with
    | .error e => .error e
    | .ok cliOptValue => bindOptionAfterCast opts option spec cliOptValue

/-- `Consoler._parseOptions(routeOptions, cliOptions)`: the loop over
the declared options, in declaration order, stopping at the first
thrown error. -/
def _parseOptions (routeOptions cliOptions : List (String × JVal)) :
    Except CErr (List (String × JVal)) :=
  routeOptions.foldlM (fun opts kv => bindOption cliOptions opts kv.1 kv.2) []

/-! ### parse -/

/-- The empty `Command` the constructor pre-builds (`command: null`). -/
def emptyCommand : Command :=
  { command := none, argument := [], option := [] }

/-- `Consoler.parse()`: return the empty command when the command names
differ, otherwise bind arguments then options. -/
def parse (route cli : ParsedCommand) : Except CErr Command := do
  if !matchCmd route cli then
    return emptyCommand
  let args ← _parseArguments route.arguments cli.arguments
  let opts ← _parseOptions route.options cli.options
  return { command := cli.command, argument := args, option := opts }

/-! ### Helper lemmas about renderings and splitting -/

lemma digitChar_ne_comma (m : ℕ) : Nat.digitChar m ≠ ',' := by
  match m with
  | 0 | 1 | 2 | 3 | 4 | 5 | 6 | 7 | 8 | 9 | 10 | 11 | 12 | 13 | 14 | 15 => decide
  | n + 16 =>
    unfold Nat.digitChar
    repeat rw [if_neg (by omega)]
    decide

lemma mem_natCharsCore {c : Char} :
    ∀ (f n : ℕ) (acc : List Char), c ∈ natCharsCore f n acc →
      (∃ m, c = Nat.digitChar m) ∨ c ∈ acc := by
  intro f
  induction f with
  | zero => intro n acc h; exact .inr h
  | succ f ih =>
    intro n acc h
    rw [natCharsCore] at h
    split at h
    · rcases List.mem_cons.mp h with h | h
      · exact .inl ⟨n, h⟩
      · exact .inr h
    · rcases ih _ _ h with h | h
      · exact .inl h
      · rcases List.mem_cons.mp h with h | h
        · exact .inl ⟨n % 10, h⟩
        · exact .inr h

lemma natChars_ne_comma {c : Char} {n : ℕ} (h : c ∈ natChars n) : c ≠ ',' := by
  rcases mem_natCharsCore _ _ _ h with ⟨m, rfl⟩ | h
  · exact digitChar_ne_comma m
  · cases h

lemma intChars_ne_comma {c : Char} {i : ℤ} (h : c ∈ intChars i) : c ≠ ',' := by
  unfold intChars at h
  split at h
  · rcases List.mem_cons.mp h with h | h
    · subst h; decide
    · exact natChars_ne_comma h
  · exact natChars_ne_comma h

lemma ratChars_ne_comma {c : Char} {q : Q} (h : c ∈ ratChars q) : c ≠ ',' := by
  unfold ratChars at h
  split at h
  · exact intChars_ne_comma h
  · rcases List.mem_append.mp h with h | h
    · exact intChars_ne_comma h
    · rcases List.mem_cons.mp h with h | h
      · subst h; decide
      · exact natChars_ne_comma h

lemma strHasComma_num (n : JNum) : strHasComma (.num n) = false := by
  cases n with
  | val q =>
    unfold strHasComma
    rw [List.any_eq_false]
    intro c hc
    have : c ≠ ',' := ratChars_ne_comma (q := q) hc
    simpa using this
  | nan => rfl
  | inf => rfl
  | neginf => rfl

lemma comma_mem_joinComma (a b : List Char) (rest : List (List Char)) :
    ',' ∈ joinComma (a :: b :: rest) := by
  show ',' ∈ a ++ ',' :: joinComma (b :: rest)
  exact List.mem_append_right _ (List.mem_cons_self _ _)

lemma strHasComma_arr_two {xs : List JVal} (h : 2 ≤ xs.length) :
    strHasComma (.arr xs) = true := by
  match xs, h with
  | x :: y :: rest, _ =>
    show (jsToStrChars (.arr (x :: y :: rest))).any (fun c => c = ',') = true
    obtain ⟨a, b, l, he⟩ : ∃ a b l, arrElemsChars (x :: y :: rest) = a :: b :: l :=
      ⟨_, _, _, rfl⟩
    have hmem : ',' ∈ jsToStrChars (.arr (x :: y :: rest)) := by
      show ',' ∈ joinComma (arrElemsChars (x :: y :: rest))
      rw [he]
      exact comma_mem_joinComma a b l
    exact List.any_eq_true.mpr ⟨',', hmem, by simp⟩

lemma splitChar_ne_nil (sep : Char) (cs : List Char) : splitChar sep cs ≠ [] := by
  induction cs with
  | nil => simp [splitChar]
  | cons c rest ih =>
    rw [splitChar]
    split
    · simp
    · split
      · simp
      · simp

lemma splitChar_length_ge_two {sep : Char} {cs : List Char} (h : sep ∈ cs) :
    2 ≤ (splitChar sep cs).length := by
  induction cs with
  | nil => cases h
  | cons c rest ih =>
    rw [splitChar]
    by_cases hc : c = sep
    · rw [if_pos hc]
      have h1 : splitChar sep rest ≠ [] := splitChar_ne_nil sep rest
      have h2 : 0 < (splitChar sep rest).length := List.length_pos.mpr h1
      simp only [List.length_cons]
      omega
    · have hrest : sep ∈ rest := by
        rcases List.mem_cons.mp h with h | h
        · exact absurd h.symm hc
        · exact h
      have ih2 := ih hrest
      rw [if_neg hc]
      cases hsp : splitChar sep rest with
      | nil => exact absurd hsp (splitChar_ne_nil sep rest)
      | cons p ps =>
        rw [hsp] at ih2
        simp only [List.length_cons] at ih2 ⊢
        omega

/-! ### Helper lemmas about `_cast` -/

lemma castScalar_num (n : JNum) : castScalar (.num n) = .num n := by
  cases n <;> rfl

lemma cast_num (n : JNum) : _cast (.num n) = .ok (.num n) := by
  unfold _cast
  rw [strHasComma_num]
  simp [castScalar_num]

lemma cast_bool (b : Bool) : _cast (.bool b) = .ok (.bool b) := by
  cases b <;> rfl

lemma cast_undefined : _cast .undefined = .ok .undefined := rfl

lemma cast_str_isOk (s : String) : ∃ w, _cast (.str s) = .ok w := by
  unfold _cast
  split
  · exact ⟨_, rfl⟩
  · exact ⟨_, rfl⟩

lemma cast_str (s : String) : _cast (.str s) = .ok (castString s) := by
  unfold _cast castString
  by_cases h : strHasComma (.str s) = true
  · rw [if_pos h, if_pos h]
  · rw [if_neg h, if_neg h]

/-! ### Helper lemmas about the option binder -/

lemma bindOption_eval {routeOptValue : JVal} {spec : OptionSpec} {v : JVal}
    (cliOptions opts : List (String × JVal)) (option : String)
    (hspec : _parsePlaceholders routeOptValue = .ok spec)
    (hcast : _cast (effRaw cliOptions option spec.aliasName) = .ok v) :
    bindOption cliOptions opts option routeOptValue =
      bindOptionAfterCast opts option spec v := by
  unfold bindOption
  rw [hspec]
  show (match _cast (effRaw cliOptions option spec.aliasName) with
    | .error e => (.error e : Except CErr (List (String × JVal)))
    | .ok cliOptValue => bindOptionAfterCast opts option spec cliOptValue) = _
  rw [hcast]

lemma afterCast_falsy_default (opts : List (String × JVal)) (option : String)
    (n al ty : Option String) (d : String) (v : JVal)
    (hfalse : jsTruthy v = false) (hne : d ≠ "") :
    bindOptionAfterCast opts option ⟨n, al, ty, some d⟩ v =
      .ok (objInsert opts (outKey n option) (castString d)) := by
  unfold bindOptionAfterCast
  rw [hfalse]
  show (if d = "" then (.ok opts : Except CErr (List (String × JVal)))
    else
      match _cast (.str d) with
      | .error e => .error e
      | .ok dv => .ok (objInsert opts (outKey n option) dv)) = _
  rw [if_neg hne, cast_str d]

lemma afterCast_falsy_noDefault (opts : List (String × JVal)) (option : String)
    (n al ty : Option String) (v : JVal) (hfalse : jsTruthy v = false) :
    bindOptionAfterCast opts option ⟨n, al, ty, none⟩ v = .ok opts := by
  unfold bindOptionAfterCast
  rw [hfalse]
  rfl

lemma afterCast_falsy_emptyDefault (opts : List (String × JVal)) (option : String)
    (n al ty : Option String) (v : JVal) (hfalse : jsTruthy v = false) :
    bindOptionAfterCast opts option ⟨n, al, ty, some ""⟩ v = .ok opts := by
  unfold bindOptionAfterCast
  rw [hfalse]
  rfl

lemma afterCast_truthy_noType (opts : List (String × JVal)) (option : String)
    (n al dflt : Option String) (v : JVal) (htrue : jsTruthy v = true) :
    bindOptionAfterCast opts option ⟨n, al, none, dflt⟩ v =
      .ok (objInsert opts (outKey n option) v) := by
  unfold bindOptionAfterCast
  rw [htrue]
  rfl

lemma afterCast_truthy_emptyType (opts : List (String × JVal)) (option : String)
    (n al dflt : Option String) (v : JVal) (htrue : jsTruthy v = true) :
    bindOptionAfterCast opts option ⟨n, al, some "", dflt⟩ v =
      .ok (objInsert opts (outKey n option) v) := by
  unfold bindOptionAfterCast
  rw [htrue]
  rfl

lemma afterCast_truthy_unsupported (opts : List (String × JVal)) (option : String)
    (n al dflt : Option String) (t : String) (v : JVal)
    (htrue : jsTruthy v = true) (hne : t ≠ "") (hsup : _typeSupported t = false) :
    bindOptionAfterCast opts option ⟨n, al, some t, dflt⟩ v = .error .invalidOption := by
  unfold bindOptionAfterCast
  rw [htrue]
  show (if t = "" then (.ok (objInsert opts (outKey n option) v) : Except CErr (List (String × JVal)))
    else if !_typeSupported t then .error .invalidOption
    else if !_checkType v t then .error .invalidOption
    else .ok (objInsert opts (outKey n option) v)) = _
  rw [if_neg hne, hsup]
  rfl

lemma afterCast_truthy_badType (opts : List (String × JVal)) (option : String)
    (n al dflt : Option String) (t : String) (v : JVal)
    (htrue : jsTruthy v = true) (hne : t ≠ "")
    (hsup : _typeSupported t = true) (hchk : _checkType v t = false) :
    bindOptionAfterCast opts option ⟨n, al, some t, dflt⟩ v = .error .invalidOption := by
  unfold bindOptionAfterCast
  rw [htrue]
  show (if t = "" then (.ok (objInsert opts (outKey n option) v) : Except CErr (List (String × JVal)))
    else if !_typeSupported t then .error .invalidOption
    else if !_checkType v t then .error .invalidOption
    else .ok (objInsert opts (outKey n option) v)) = _
  rw [if_neg hne, hsup, hchk]
  rfl

lemma afterCast_truthy_bound (opts : List (String × JVal)) (option : String)
    (n al dflt : Option String) (t : String) (v : JVal)
    (htrue : jsTruthy v = true) (hne : t ≠ "")
    (hsup : _typeSupported t = true) (hchk : _checkType v t = true) :
    bindOptionAfterCast opts option ⟨n, al, some t, dflt⟩ v =
      .ok (objInsert opts (outKey n option) v) := by
  unfold bindOptionAfterCast
  rw [htrue]
  show (if t = "" then (.ok (objInsert opts (outKey n option) v) : Except CErr (List (String × JVal)))
    else if !_typeSupported t then .error .invalidOption
    else if !_checkType v t then .error .invalidOption
    else .ok (objInsert opts (outKey n option) v)) = _
  rw [if_neg hne, hsup, hchk]
  rfl

lemma effRaw_false_noalias (cliOptions : List (String × JVal)) (option : String)
    (hlookup : cliOptions.lookup option = some (.bool false))
    (hnull : cliOptions.lookup "null" = none) :
    effRaw cliOptions option none = .undefined := by
  unfold effRaw
  rw [hlookup, hnull]
  rfl

/-! ### Claim C1 -/

/-- C1: `match()` returns `true` exactly when the route's and the
invocation's command names are equal by exact (string) equality, and
whenever they differ `parse()` returns the empty
`Command` `(command: absent, argument: empty, option: empty)` without
raising any error. -/
theorem C1_match_exact_equality_and_nonmatch_parse_empty
    (route cli : ParsedCommand) :
    (matchCmd route cli = true ↔ route.command = cli.command) ∧
    (route.command ≠ cli.command →
      parse route cli = .ok { command := none, argument := [], option := [] }) := by
  constructor
  · simp [matchCmd]
  · intro h
    have hm : matchCmd route cli = false := by
      simp [matchCmd]
      exact h
    unfold parse
    rw [hm]
    rfl

/-- Witness for C1 at concrete non-matching commands. -/
theorem C1_witness :
    parse { command := some "deploy", arguments := [], options := [] }
        { command := some "destroy", arguments := ["x"], options := [("v", .bool true)] } =
      .ok { command := none, argument := [], option := [] } :=
  (C1_match_exact_equality_and_nonmatch_parse_empty _ _).2 (by decide)

/-! ### Claim C6 -/

/-- C6 counterexample: `cast` is not total on the values reachable at
the option-binding interface.  A repeated flag makes the decomposer
emit a two-element sequence; its string form contains a comma, so
`_cast` reaches `value.split(',')` on an array, which has no `split`
method: a `TypeError` is raised.  This refutes the claim that `cast`
"returns a result and never fails" on such sequences. -/
theorem C6_counterexample :
    _cast (.arr [.num (.val (qInt 1)), .num (.val (qInt 2))]) = .error .typeError := rfl

/-- C6 amended: `cast` is total (never fails) on every non-sequence
input — strings, numbers, booleans, `undefined` — while on a sequence
it fails with a `TypeError` exactly when the sequence's string form
contains a comma; in particular it fails on every sequence of two or
more elements (as produced by the flag decomposer for repeated
flags). -/
theorem C6_amended_cast_total_on_nonsequences :
    (∀ s, ∃ w, _cast (.str s) = .ok w) ∧
    (∀ n, ∃ w, _cast (.num n) = .ok w) ∧
    (∀ b, ∃ w, _cast (.bool b) = .ok w) ∧
    (∃ w, _cast .undefined = .ok w) ∧
    (∀ xs, 2 ≤ xs.length → _cast (.arr xs) = .error .typeError) ∧
    (∀ xs, strHasComma (.arr xs) = false → ∃ w, _cast (.arr xs) = .ok w) := by
  refine ⟨cast_str_isOk, fun n => ⟨_, cast_num n⟩, fun b => ⟨_, cast_bool b⟩,
    ⟨_, cast_undefined⟩, ?_, ?_⟩
  · intro xs h
    unfold _cast
    rw [strHasComma_arr_two h]
    rfl
  · intro xs h
    unfold _cast
    rw [h]
    exact ⟨_, rfl⟩

/-- Witness for C6 amended at concrete inputs. -/
theorem C6_witness :
    _cast (.arr [.num (.val (qInt 1)), .num (.val (qInt 2)), .num (.val (qInt 3))]) =
      .error .typeError :=
  C6_amended_cast_total_on_nonsequences.2.2.2.2.1 _ (by decide)

/-! ### Claim C7 -/

/-- C7 (code bug): the claim — matching the intent of the
`_isNumber` guard, whose documentation says it checks "if a value is a
number" and which explicitly filters NaN and Infinity — is that `cast`
never returns NaN and returns a number only for genuinely numeric
strings.  The code checks numericity with `parseFloat` (a prefix
parse) but converts with `Number` (a whole-string parse): for the
comma-free, non-numeric string `123abc`, `parseFloat` yields the finite
`123`, so the guard passes, and `Number('123abc')` — NaN — escapes as a
casted number (`typeof NaN === 'number'`).  Downstream, the NaN is
falsy, so a parse of a value option against `--opt=123abc` silently
drops the option instead of binding the string. -/
theorem C7_code_bug_nan_escapes :
    _isNumber (.str "123abc") = true ∧
    _cast (.str "123abc") = .ok (.num .nan) ∧
    jsTypeof (.num .nan) = "number" ∧
    parse { command := some "cmd", arguments := [], options := [("opt", .str "")] }
        { command := some "cmd", arguments := [], options := [("opt", .str "123abc")] } =
      .ok { command := some "cmd", argument := [], option := [] } :=
  ⟨rfl, rfl, rfl, rfl⟩

/-! ### Claim C8 -/

/-- C8 counterexample: `cast` is not idempotent on casted sequences.
`cast('1,2')` produces the sequence `[1, 2]`, but casting that output
again raises a `TypeError` (its string form contains a comma, and
arrays have no `split` method), rather than returning it unchanged. -/
theorem C8_counterexample :
    _cast (.str "1,2") = .ok (.arr [.num (.val (qInt 1)), .num (.val (qInt 2))]) ∧
    _cast (.arr [.num (.val (qInt 1)), .num (.val (qInt 2))]) = .error .typeError ∧
    (Except.error CErr.typeError ≠
      (Except.ok (.arr [.num (.val (qInt 1)), .num (.val (qInt 2))]) : Except CErr JVal)) :=
  ⟨rfl, rfl, by simp⟩

/-- C8 amended: `cast` is idempotent on casted numbers and booleans
(`cast(v) = v` for every number or boolean), but every sequence `cast`
outputs has at least two elements (a split on a present comma), and
casting any such sequence again fails with a `TypeError` instead of
returning it. -/
theorem C8_amended_idempotent_on_scalars :
    (∀ n, _cast (.num n) = .ok (.num n)) ∧
    (∀ b, _cast (.bool b) = .ok (.bool b)) ∧
    (∀ s xs, _cast (.str s) = .ok (.arr xs) → 2 ≤ xs.length) ∧
    (∀ xs, 2 ≤ xs.length → _cast (.arr xs) = .error .typeError) := by
  refine ⟨cast_num, cast_bool, ?_, ?_⟩
  · intro s xs h
    unfold _cast at h
    split at h
    · next hcomma =>
      have hmem : ',' ∈ s.data := by
        have := hcomma
        unfold strHasComma at this
        rcases List.any_eq_true.mp this with ⟨c, hc, hceq⟩
        have : c = ',' := by simpa using hceq
        subst this
        exact hc
      have hlen := splitChar_length_ge_two hmem
      have : xs = (splitChar ',' s.data).map
          (fun piece => castScalar (.str (String.mk piece))) := by
        have := h
        simp only [Except.ok.injEq] at this
        exact (JVal.arr.inj this).symm
      rw [this, List.length_map]
      exact hlen
    · exfalso
      have h' : castScalar (.str s) = .arr xs := by
        simpa using h
      by_cases hn : _isNumber (.str s) = true
      · rw [show castScalar (.str s) = .num (toNumber (.str s)) from by
          unfold castScalar; rw [if_pos hn]] at h'
        simp at h'
      · rw [show castScalar (.str s) =
            (if s = "true" then JVal.bool true
             else if s = "false" then JVal.bool false
             else .str (trimWs s)) from by
          unfold castScalar; rw [if_neg hn]] at h'
        repeat' split at h'
        all_goals simp at h'
  · intro xs h
    unfold _cast
    rw [strHasComma_arr_two h]
    rfl

/-- Witness for C8 amended at concrete inputs. -/
theorem C8_witness :
    _cast (.num (.val (qInt 7))) = .ok (.num (.val (qInt 7))) ∧
    _cast (.arr [.str "a", .str "b"]) = .error .typeError :=
  ⟨C8_amended_idempotent_on_scalars.1 _,
    C8_amended_idempotent_on_scalars.2.2.2 _ (by decide)⟩

/-! ### Claim C3 -/

/-- C3 counterexample: the claim says that when a value is supplied it
is bound and overrides any declared default.  With template option
`--opt=<default:5>` and invocation `--opt=0`, a value IS supplied (the
flag map holds `"0"`), but the code decides the supplied-vs-default
branch on the truthiness of the casted value: `cast('0') = 0` is falsy,
so the default `5` is bound instead of the supplied `0`. -/
theorem C3_counterexample :
    parse { command := some "cmd", arguments := [], options := [("opt", .str "<default:5>")] }
        { command := some "cmd", arguments := [], options := [("opt", .str "0")] } =
      .ok { command := some "cmd", argument := [], option := [("opt", .num (.val (qInt 5)))] } ∧
    ((.ok { command := some "cmd", argument := [], option := [("opt", .num (.val (qInt 5)))] } :
        Except CErr Command) ≠
      .ok { command := some "cmd", argument := [], option := [("opt", .num (.val (qInt 0)))] }) :=
  ⟨rfl, by simp [qInt]⟩

/-- C3 amended: the option binder decides supplied-vs-default on the JS
truthiness of the casted value of the
`cliOptions[option] || cliOptions[alias]` lookup (a falsy flag value
falls back to the alias; with no declared alias, JS key coercion makes
that a read of the invocation's literal `null` flag), not on whether a
value was supplied.  When that casted effective value is falsy, the
casted default is bound under `name || flagKey` provided the
placeholder declares a (non-empty, hence truthy) default, and
otherwise no key is emitted and no type validation runs (the result is
`ok` regardless of the declared type); when the casted effective value
is truthy it is bound — overriding any declared default — after
passing type validation. -/
theorem C3_amended_truthiness_decides_default
    (cliOptions opts : List (String × JVal)) (option : String)
    (routeOptValue : JVal) (spec : OptionSpec) (v : JVal)
    (hspec : _parsePlaceholders routeOptValue = .ok spec)
    (hcast : _cast (effRaw cliOptions option spec.aliasName) = .ok v) :
    (jsTruthy v = false →
      (∀ d, spec.defaultValue = some d → d ≠ "" →
        bindOption cliOptions opts option routeOptValue =
          .ok (objInsert opts (outKey spec.name option) (castString d))) ∧
      (spec.defaultValue = none →
        bindOption cliOptions opts option routeOptValue = .ok opts)) ∧
    (jsTruthy v = true →
      (spec.type = none →
        bindOption cliOptions opts option routeOptValue =
          .ok (objInsert opts (outKey spec.name option) v)) ∧
      (∀ t, spec.type = some t → t ≠ "" →
        _typeSupported t = true → _checkType v t = true →
        bindOption cliOptions opts option routeOptValue =
          .ok (objInsert opts (outKey spec.name option) v))) := by
  have heval := bindOption_eval cliOptions opts option hspec hcast
  obtain ⟨n, al, ty, dflt⟩ := spec
  constructor
  · intro hfalse
    constructor
    · intro d hd hne
      have hd' : dflt = some d := hd
      subst hd'
      rw [heval]
      exact afterCast_falsy_default opts option n al ty d v hfalse hne
    · intro hd
      have hd' : dflt = none := hd
      subst hd'
      rw [heval]
      exact afterCast_falsy_noDefault opts option n al ty v hfalse
  · intro htrue
    constructor
    · intro ht
      have ht' : ty = none := ht
      subst ht'
      rw [heval]
      exact afterCast_truthy_noType opts option n al dflt v htrue
    · intro t ht hne hsup hchk
      have ht' : ty = some t := ht
      subst ht'
      rw [heval]
      exact afterCast_truthy_bound opts option n al dflt t v htrue hne hsup hchk

/-- Witness for C3 amended: the concrete counterexample inputs, driven
through the amended theorem. -/
theorem C3_witness :
    bindOption [("opt", .str "0")] [] "opt" (.str "<default:5>") =
      .ok [("opt", .num (.val (qInt 5)))] := by
  have h := (C3_amended_truthiness_decides_default
      [("opt", .str "0")] [] "opt" (.str "<default:5>")
      { name := none, aliasName := none, type := none, defaultValue := some "5" }
      (.num (.val (qInt 0))) rfl rfl).1 rfl |>.1 "5" rfl (by decide)
  exact h.trans (by rfl)

/-! ### Claim C4 -/

/-- C4: for an option whose casted supplied value is truthy (the code's
reading of "receives a supplied value"), the binder raises
`InvalidOption` when the declared (non-empty) type name is not one of
string / number / array / boolean, and raises `InvalidOption` when the
casted value's runtime kind does not match the declared or implicit
type; casted sequences are classified structurally as `array` (never
`object`) by `_checkType`; and a bare boolean-flag declaration
(route value parsed as boolean `true`, giving implicit type `boolean`)
that receives a non-boolean casted value raises `InvalidOption`.
An empty declared type name is excluded: it is JS-falsy, so the
source's `type && ...` guards skip it by design. -/
theorem C4_supplied_value_type_validation
    (cliOptions opts : List (String × JVal)) (option : String)
    (routeOptValue : JVal) (spec : OptionSpec) (v : JVal)
    (hspec : _parsePlaceholders routeOptValue = .ok spec)
    (hcast : _cast (effRaw cliOptions option spec.aliasName) = .ok v)
    (htruthy : jsTruthy v = true) :
    (∀ t, spec.type = some t → t ≠ "" → _typeSupported t = false →
      bindOption cliOptions opts option routeOptValue = .error .invalidOption) ∧
    (∀ t, spec.type = some t → _typeSupported t = true → _checkType v t = false →
      bindOption cliOptions opts option routeOptValue = .error .invalidOption) ∧
    (∀ xs t, _checkType (.arr xs) t = (t == "array")) ∧
    (routeOptValue = .bool true → (∀ b, v ≠ .bool b) →
      bindOption cliOptions opts option routeOptValue = .error .invalidOption) := by
  have heval := bindOption_eval cliOptions opts option hspec hcast
  refine ⟨?_, ?_, fun xs t => rfl, ?_⟩
  · intro t ht hne hsup
    obtain ⟨n, al, ty, dflt⟩ := spec
    have ht' : ty = some t := ht
    subst ht'
    rw [heval]
    exact afterCast_truthy_unsupported opts option n al dflt t v htruthy hne hsup
  · intro t ht hsup hchk
    have hne : t ≠ "" := by
      intro he
      subst he
      exact absurd hsup (by decide)
    obtain ⟨n, al, ty, dflt⟩ := spec
    have ht' : ty = some t := ht
    subst ht'
    rw [heval]
    exact afterCast_truthy_badType opts option n al dflt t v htruthy hne hsup hchk
  · intro hroute hnb
    subst hroute
    have h1 : _parsePlaceholders (.bool true) =
        .ok { name := none, aliasName := none, type := some "boolean", defaultValue := none } := rfl
    rw [h1] at hspec
    have h2 := Except.ok.inj hspec
    subst h2
    rw [heval]
    have hchk : _checkType v "boolean" = false := by
      cases v with
      | str s => rfl
      | num m => rfl
      | bool b => exact absurd rfl (hnb b)
      | arr xs => rfl
      | undefined => rfl
    exact afterCast_truthy_badType opts option none none none "boolean" v htruthy
      (by decide) (by decide) hchk

/-- Witness for C4: a bare `--opt` flag declaration receiving
`--opt=10` raises `InvalidOption`. -/
theorem C4_witness :
    bindOption [("opt", .str "10")] [] "opt" (.bool true) = .error .invalidOption :=
  (C4_supplied_value_type_validation [("opt", .str "10")] [] "opt" (.bool true)
      { name := none, aliasName := none, type := some "boolean", defaultValue := none }
      (.num (.val (qInt 10))) rfl rfl rfl).2.2.2 rfl
    (fun b h => JVal.noConfusion h)

/-! ### Claim C9 -/

/-- C9 counterexample: the claim says a raw invocation value of boolean
`false` counts as supplied, so the default must not be applied and the
`false` must proceed to validation and binding.  In the code, `false`
is falsy: the lookup `cliOptions[option] || cliOptions[alias]` already
discards it, the fallback read (here of the absent literal `null`
flag) yields `undefined`, the casted value is falsy, and the default
IS applied — with template `--opt=<default:5>` and raw value `false`
the result binds `5`, not `false`. -/
theorem C9_counterexample :
    parse { command := some "cmd", arguments := [], options := [("opt", .str "<default:5>")] }
        { command := some "cmd", arguments := [], options := [("opt", .bool false)] } =
      .ok { command := some "cmd", argument := [], option := [("opt", .num (.val (qInt 5)))] } ∧
    ((.ok { command := some "cmd", argument := [], option := [("opt", .num (.val (qInt 5)))] } :
        Except CErr Command) ≠
      .ok { command := some "cmd", argument := [], option := [("opt", .bool false)] }) :=
  ⟨rfl, by simp⟩

/-- C9 amended: a raw invocation value of boolean `false` is treated as
absent, not as supplied: being falsy it already fails the
`cliOptions[option] || cliOptions[alias]` lookup, so the fallback is
consulted — with no declared alias that is `cliOptions[null]`, which JS
key coercion turns into a read of the literal `null` flag, here
hypothesised absent, giving `undefined` — the casted value is falsy,
and the binder takes the default branch — the declared (non-empty)
default is bound, otherwise no key is emitted — with no type
validation and no binding of the `false`. -/
theorem C9_amended_false_treated_as_absent
    (cliOptions opts : List (String × JVal)) (option : String)
    (routeOptValue : JVal) (spec : OptionSpec)
    (hspec : _parsePlaceholders routeOptValue = .ok spec)
    (hlookup : cliOptions.lookup option = some (.bool false))
    (halias : spec.aliasName = none)
    (hnull : cliOptions.lookup "null" = none) :
    effRaw cliOptions option spec.aliasName = .undefined ∧
    (∀ d, spec.defaultValue = some d → d ≠ "" →
      bindOption cliOptions opts option routeOptValue =
        .ok (objInsert opts (outKey spec.name option) (castString d))) ∧
    (spec.defaultValue = none →
      bindOption cliOptions opts option routeOptValue = .ok opts) := by
  have heff : effRaw cliOptions option spec.aliasName = .undefined := by
    rw [halias]
    exact effRaw_false_noalias cliOptions option hlookup hnull
  have hcast : _cast (effRaw cliOptions option spec.aliasName) = .ok .undefined := by
    rw [heff]
    exact cast_undefined
  have heval := bindOption_eval cliOptions opts option hspec hcast
  have hfalse : jsTruthy JVal.undefined = false := rfl
  refine ⟨heff, ?_, ?_⟩
  · intro d hd hne
    obtain ⟨n, al, ty, dflt⟩ := spec
    have hd' : dflt = some d := hd
    subst hd'
    rw [heval]
    exact afterCast_falsy_default opts option n al ty d _ hfalse hne
  · intro hd
    obtain ⟨n, al, ty, dflt⟩ := spec
    have hd' : dflt = none := hd
    subst hd'
    rw [heval]
    exact afterCast_falsy_noDefault opts option n al ty _ hfalse

/-- Witness for C9 amended: raw `false` against `--opt=<default:5>`
binds the default `5`. -/
theorem C9_witness :
    bindOption [("opt", .bool false)] [] "opt" (.str "<default:5>") =
      .ok [("opt", .num (.val (qInt 5)))] := by
  have h := (C9_amended_false_treated_as_absent
      [("opt", .bool false)] [] "opt" (.str "<default:5>")
      { name := none, aliasName := none, type := none, defaultValue := some "5" }
      rfl rfl rfl rfl).2.1 "5" rfl (by decide)
  exact h.trans (by rfl)

/-! ### Claim C10 -/

/-- C10 counterexample: the claim's conclusion — a supplied value
casting to `0` or the empty string means "the declared default (if
any) is bound, otherwise no key is emitted" — is false of the program.
With route `cmd --opt=<default:5>` and invocation
`cmd --opt= --null=9` (decomposed to `opt` holding the empty string
plus a flag literally named `null` holding `9`): the empty string is
falsy, so `cliOptions[option] || cliOptions[alias]` falls back to
`cliOptions[null]`, which JS key coercion turns into a read of the
literal `null` flag; its truthy `9` is cast and bound —
`option.opt = 9`, neither the default `5` nor no-key. -/
theorem C10_counterexample :
    parse { command := some "cmd", arguments := [], options := [("opt", .str "<default:5>")] }
        { command := some "cmd", arguments := [],
          options := [("opt", .str ""), ("null", .str "9")] } =
      .ok { command := some "cmd", argument := [], option := [("opt", .num (.val (qInt 9)))] } ∧
    ((.ok { command := some "cmd", argument := [], option := [("opt", .num (.val (qInt 9)))] } :
        Except CErr Command) ≠
      .ok { command := some "cmd", argument := [], option := [("opt", .num (.val (qInt 5)))] }) :=
  ⟨rfl, by simp [qInt]⟩

/-- C10 amended: a supplied raw invocation value that is, or casts to,
the number `0` or the empty string (`--opt=0`, `--opt=`, a
whitespace-only value) is handled exactly as the no-value case is
handled: the falsy value falls back to `cliOptions[alias]` — with no
declared alias, to the invocation's literal `null` flag — and only
when the resulting EFFECTIVE casted value is itself falsy (`0`, the
empty string, or `undefined`) does the default branch run: the binder
never errors (no type validation runs against the supplied value,
whatever the declared type), the declared (non-empty) default is bound
when present, and otherwise no key is emitted. -/
theorem C10_falsy_supplied_treated_as_absent
    (cliOptions opts : List (String × JVal)) (option : String)
    (routeOptValue : JVal) (spec : OptionSpec) (v r : JVal)
    (hspec : _parsePlaceholders routeOptValue = .ok spec)
    (hsupplied : cliOptions.lookup option = some r)
    (hcast : _cast (effRaw cliOptions option spec.aliasName) = .ok v)
    (hv : v = .num (.val (qInt 0)) ∨ v = .str "" ∨ v = .undefined) :
    (∃ m, bindOption cliOptions opts option routeOptValue = .ok m) ∧
    (spec.defaultValue = none →
      bindOption cliOptions opts option routeOptValue = .ok opts) ∧
    (∀ d, spec.defaultValue = some d → d ≠ "" →
      bindOption cliOptions opts option routeOptValue =
        .ok (objInsert opts (outKey spec.name option) (castString d))) := by
  have hfalse : jsTruthy v = false := by
    rcases hv with rfl | rfl | rfl <;> rfl
  have heval := bindOption_eval cliOptions opts option hspec hcast
  obtain ⟨n, al, ty, dflt⟩ := spec
  refine ⟨?_, ?_, ?_⟩
  · match hd : dflt with
    | none =>
      refine ⟨opts, ?_⟩
      rw [heval]
      exact afterCast_falsy_noDefault opts option n al ty v hfalse
    | some d =>
      by_cases hne : d = ""
      · subst hne
        refine ⟨opts, ?_⟩
        rw [heval]
        exact afterCast_falsy_emptyDefault opts option n al ty v hfalse
      · refine ⟨objInsert opts (outKey n option) (castString d), ?_⟩
        rw [heval]
        exact afterCast_falsy_default opts option n al ty d v hfalse hne
  · intro hd
    have hd' : dflt = none := hd
    subst hd'
    rw [heval]
    exact afterCast_falsy_noDefault opts option n al ty v hfalse
  · intro d hd hne
    have hd' : dflt = some d := hd
    subst hd'
    rw [heval]
    exact afterCast_falsy_default opts option n al ty d v hfalse hne

/-- Witness for C10: `--opt=0` against `--opt=<type:string|default:7>`
raises no type error (0 is a number against a declared `string` type,
but validation is skipped) and binds the default `7`. -/
theorem C10_witness :
    bindOption [("opt", .str "0")] [] "opt" (.str "<type:string|default:7>") =
      .ok [("opt", .num (.val (qInt 7)))] := by
  have h := (C10_falsy_supplied_treated_as_absent
      [("opt", .str "0")] [] "opt" (.str "<type:string|default:7>")
      { name := none, aliasName := none, type := some "string", defaultValue := some "7" }
      (.num (.val (qInt 0))) (.str "0") rfl rfl rfl (.inl rfl)).2.2 "7" rfl (by decide)
  exact h.trans (by rfl)

/-! ### Helper lemmas about the placeholder grammar -/

lemma keyValTest_colon_mem {cs : List Char} (h : keyValTest cs = true) : ':' ∈ cs := by
  unfold keyValTest at h
  obtain ⟨i, _, hcond⟩ := List.any_eq_true.mp h
  simp only [Bool.and_eq_true] at hcond
  exact List.get?_mem (of_decide_eq_true hcond.1.1.1)

lemma keyVal_split_shape {p : List Char} (h : keyValTest p = true) :
    ∃ k v r, splitChar ':' p = k :: v :: r := by
  have hmem := keyValTest_colon_mem h
  have hlen := splitChar_length_ge_two hmem
  cases hsp : splitChar ':' p with
  | nil => rw [hsp] at hlen; simp at hlen
  | cons k rest =>
    cases rest with
    | nil => rw [hsp] at hlen; simp at hlen
    | cons v r => exact ⟨k, v, r, rfl⟩

lemma placeholderFold_cons_keyVal {p : List Char} {rest : List (List Char)}
    {res : OptionSpec} {k v : List Char} {r' : List (List Char)}
    (hkv : keyValTest p = true) (hsp : splitChar ':' p = k :: v :: r') :
    placeholderFold (p :: rest) res =
      (if k = "type".data then
        placeholderFold rest { res with type := some (String.mk v) }
      else if k = "default".data then
        placeholderFold rest { res with defaultValue := some (String.mk v) }
      else if k = "alias".data then
        placeholderFold rest { res with aliasName := some (String.mk v) }
      else .error .invalidOption) := by
  simp only [placeholderFold]
  rw [if_pos hkv, hsp]

lemma placeholderFold_cons_bare {p : List Char} {rest : List (List Char)}
    {res : OptionSpec} (hkv : ¬ keyValTest p = true) :
    placeholderFold (p :: rest) res =
      placeholderFold rest { res with name := some (String.mk p) } := by
  simp only [placeholderFold]
  rw [if_neg hkv]

lemma placeholderFold_error_iff :
    ∀ (params : List (List Char)) (res : OptionSpec),
      (placeholderFold params res = .error .invalidOption ↔ ∃ p ∈ params, badToken p) := by
  intro params
  induction params with
  | nil =>
    intro res
    simp [placeholderFold]
  | cons p rest ih =>
    intro res
    by_cases hkv : keyValTest p = true
    · obtain ⟨k, v, r', hsp⟩ := keyVal_split_shape hkv
      have hkey : keyOf p = k := by unfold keyOf; rw [hsp]
      rw [placeholderFold_cons_keyVal hkv hsp]
      have step : keyOf p ∈ (["type".data, "default".data, "alias".data] : List (List Char)) →
          ((∃ q ∈ rest, badToken q) ↔ ∃ q ∈ p :: rest, badToken q) := by
        intro hk
        constructor
        · rintro ⟨q, hq, hb⟩
          exact ⟨q, List.mem_cons_of_mem _ hq, hb⟩
        · rintro ⟨q, hq, hb⟩
          rcases List.mem_cons.mp hq with rfl | hq
          · exact absurd hk hb.2
          · exact ⟨q, hq, hb⟩
      by_cases h1 : k = "type".data
      · rw [if_pos h1, ih]
        exact step (by rw [hkey, h1]; simp)
      by_cases h2 : k = "default".data
      · rw [if_neg h1, if_pos h2, ih]
        exact step (by rw [hkey, h2]; simp)
      by_cases h3 : k = "alias".data
      · rw [if_neg h1, if_neg h2, if_pos h3, ih]
        exact step (by rw [hkey, h3]; simp)
      · rw [if_neg h1, if_neg h2, if_neg h3]
        constructor
        · intro _
          refine ⟨p, List.mem_cons_self _ _, hkv, ?_⟩
          rw [hkey]
          simp [h1, h2, h3]
        · intro _
          rfl
    · rw [placeholderFold_cons_bare hkv, ih]
      constructor
      · rintro ⟨q, hq, hb⟩
        exact ⟨q, List.mem_cons_of_mem _ hq, hb⟩
      · rintro ⟨q, hq, hb⟩
        rcases List.mem_cons.mp hq with rfl | hq
        · exact absurd hb.1 hkv
        · exact ⟨q, hq, hb⟩

lemma placeholderFold_ok_name :
    ∀ (params : List (List Char)) (res spec : OptionSpec),
      placeholderFold params res = .ok spec →
      spec.name = (match lastBare params with
        | some q => some (String.mk q)
        | none => res.name) := by
  intro params
  induction params with
  | nil =>
    intro res spec h
    have hrs : res = spec := by simpa [placeholderFold] using h
    subst hrs
    rfl
  | cons p rest ih =>
    intro res spec h
    by_cases hkv : keyValTest p = true
    · obtain ⟨k, v, r', hsp⟩ := keyVal_split_shape hkv
      rw [placeholderFold_cons_keyVal hkv hsp] at h
      have hlast : lastBare (p :: rest) = lastBare rest := by
        simp only [lastBare]
        rw [if_pos hkv]
        cases lastBare rest <;> rfl
      rw [hlast]
      by_cases h1 : k = "type".data
      · rw [if_pos h1] at h
        have h' := ih _ _ h
        exact h'
      by_cases h2 : k = "default".data
      · rw [if_neg h1, if_pos h2] at h
        have h' := ih _ _ h
        exact h'
      by_cases h3 : k = "alias".data
      · rw [if_neg h1, if_neg h2, if_pos h3] at h
        have h' := ih _ _ h
        exact h'
      · rw [if_neg h1, if_neg h2, if_neg h3] at h
        cases h
    · rw [placeholderFold_cons_bare hkv] at h
      have hname := ih _ _ h
      rw [hname]
      have hlast : lastBare (p :: rest) =
          (match lastBare rest with
           | some q => some q
           | none => some p) := by
        simp only [lastBare]
        rw [if_neg hkv]
      rw [hlast]
      cases lastBare rest <;> rfl

/-! ### Claim C5 -/

/-- C5: inside a bracketed placeholder, parsing fails with
`InvalidOption` exactly when some parameter token is in `key:value`
shape with a key other than `type`, `default`, `alias` (the key being
the piece before the token's first colon, compared by exact equality);
and on success multiple bare tokens do not fail — the spec's `name`
field is exactly the last bare token, later bare tokens overwriting
earlier ones left to right. -/
theorem C5_unknown_key_throws_last_bare_wins
    (s : String) (hbr : (regexCapture '<' '>' s.data).isSome = true) :
    ((_parsePlaceholders (.str s) = .error .invalidOption) ↔
      ∃ p ∈ splitChar '|' ((s.data.drop 1).dropLast), badToken p) ∧
    (∀ spec, _parsePlaceholders (.str s) = .ok spec →
      spec.name = (lastBare (splitChar '|' ((s.data.drop 1).dropLast))).map String.mk) := by
  have hunfold : _parsePlaceholders (.str s) =
      placeholderFold (splitChar '|' ((s.data.drop 1).dropLast))
        { name := none, aliasName := none, type := none, defaultValue := none } := by
    show (if (regexCapture '<' '>' s.data).isSome = true then
        placeholderFold (splitChar '|' ((s.data.drop 1).dropLast))
          { name := none, aliasName := none, type := none, defaultValue := none }
      else .ok { name := none, aliasName := none, type := some "string", defaultValue := none }) = _
    rw [if_pos hbr]
  rw [hunfold]
  constructor
  · exact placeholderFold_error_iff _ _
  · intro spec h
    rw [placeholderFold_ok_name _ _ _ h]
    cases lastBare (splitChar '|' ((s.data.drop 1).dropLast)) <;> rfl

/-- Witness for C5: `<foo:bar>` throws on the unknown key `foo`;
`<a|b|type:number>` succeeds and its name is the last bare token
`b`. -/
theorem C5_witness :
    _parsePlaceholders (.str "<foo:bar>") = .error .invalidOption ∧
    (⟨some "b", none, some "number", none⟩ : OptionSpec).name =
      (lastBare (splitChar '|' (("<a|b|type:number>".data.drop 1).dropLast))).map String.mk :=
  ⟨(C5_unknown_key_throws_last_bare_wins "<foo:bar>" (by decide)).1.mpr
      ⟨"foo:bar".data, by decide, by decide, by decide⟩,
    (C5_unknown_key_throws_last_bare_wins "<a|b|type:number>" (by decide)).2
      { name := some "b", aliasName := none, type := some "number", defaultValue := none }
      (by rfl)⟩

/-! ### Helper lemmas about the argument binder -/

lemma tail_get? (c : List String) (j : ℕ) : c.tail.get? j = c.get? (j + 1) := by
  cases c <;> rfl

lemma get?_zero (c : List String) : c.get? 0 = c.head? := by
  cases c <;> rfl

lemma take_head? (c : List String) (n : ℕ) : (c.take (n + 1)).head? = c.head? := by
  cases c <;> rfl

lemma take_tail (c : List String) (n : ℕ) : (c.take (n + 1)).tail = c.tail.take n := by
  cases c <;> simp [List.take]

lemma argKey_angle {p : String} {nm : String} (h : angleName p = some nm) :
    argKey p = nm := by
  unfold argKey
  rw [h]

lemma argKey_square {p : String} (h : angleName p = none) :
    argKey p = (squareName p).getD p := by
  unfold argKey
  rw [h]

lemma lookup_cons_ne {k a b : String} {l : List (String × String)} (h : ¬ k = a) :
    ((a, b) :: l).lookup k = l.lookup k := by
  have hb : (k == a) = false := beq_eq_false_iff_ne.mpr h
  simp [List.lookup, hb]

lemma lookup_cons_self {k b : String} {l : List (String × String)} :
    ((k, b) :: l).lookup k = some b := by
  simp [List.lookup]

lemma lookup_eq_none_of_not_mem {k : String} {l : List (String × String)}
    (h : k ∉ l.map Prod.fst) : l.lookup k = none := by
  induction l with
  | nil => rfl
  | cons e es ih =>
    simp only [List.map_cons, List.mem_cons, not_or] at h
    have hb : (k == e.1) = false := beq_eq_false_iff_ne.mpr h.1
    obtain ⟨e1, e2⟩ := e
    simp only [List.lookup]
    rw [hb]
    exact ih h.2

lemma argStep_req_missing {p : String} {nm : String} {v? : Option String}
    (hA : angleName p = some nm) (hv : v? = none ∨ v? = some "") :
    argStep p v? = .error .missingArgument := by
  unfold argStep
  rcases hv with rfl | rfl <;> rw [hA] <;> rfl

lemma argStep_req_ok {p : String} {nm : String} {v? : Option String} {v : String}
    (hA : angleName p = some nm) (hv : v? = some v) (hve : ¬ v = "") :
    argStep p v? = .ok (some (nm, v)) := by
  unfold argStep
  rw [hA, hv]
  show (if v = "" then (.error .missingArgument : Except CErr (Option (String × String)))
    else .ok (some (nm, v))) = _
  rw [if_neg hve]

lemma argStep_opt_none {p : String} {v? : Option String}
    (hA : angleName p = none) (hv : v? = none) :
    argStep p v? = .ok none := by
  unfold argStep
  rw [hA, hv]

lemma argStep_opt_empty {p : String} {v? : Option String}
    (hA : angleName p = none) (hv : v? = some "") :
    argStep p v? = .ok none := by
  unfold argStep
  rw [hA, hv]
  rfl

lemma argStep_opt_bind {p : String} {v? : Option String} {v : String}
    (hA : angleName p = none) (hv : v? = some v) (hve : ¬ v = "") :
    argStep p v? = .ok (some ((squareName p).getD p, v)) := by
  unfold argStep
  rw [hA, hv]
  show (if v = "" then (.ok none : Except CErr (Option (String × String)))
    else .ok (some ((squareName p).getD p, v))) = _
  rw [if_neg hve]

lemma aux_cons_error {p : String} {ps cli : List String}
    {acc : List (String × String)} {e : CErr}
    (h : argStep p cli.head? = .error e) :
    parseArgumentsAux (p :: ps) cli acc = .error e := by
  show (match argStep p cli.head? with
    | .error e => (.error e : Except CErr (List (String × String)))
    | .ok none => parseArgumentsAux ps cli.tail acc
    | .ok (some kv) => parseArgumentsAux ps cli.tail (kv :: acc)) = _
  rw [h]

lemma aux_cons_skip {p : String} {ps cli : List String}
    {acc : List (String × String)}
    (h : argStep p cli.head? = .ok none) :
    parseArgumentsAux (p :: ps) cli acc = parseArgumentsAux ps cli.tail acc := by
  show (match argStep p cli.head? with
    | .error e => (.error e : Except CErr (List (String × String)))
    | .ok none => parseArgumentsAux ps cli.tail acc
    | .ok (some kv) => parseArgumentsAux ps cli.tail (kv :: acc)) = _
  rw [h]

lemma aux_cons_bind {p : String} {ps cli : List String}
    {acc : List (String × String)} {kv : String × String}
    (h : argStep p cli.head? = .ok (some kv)) :
    parseArgumentsAux (p :: ps) cli acc =
      parseArgumentsAux ps cli.tail (kv :: acc) := by
  show (match argStep p cli.head? with
    | .error e => (.error e : Except CErr (List (String × String)))
    | .ok none => parseArgumentsAux ps cli.tail acc
    | .ok (some kv) => parseArgumentsAux ps cli.tail (kv :: acc)) = _
  rw [h]

/-- A "defect" of a route/cli pair: some position holds a required
pattern whose cli value is absent or empty. -/
lemma exists_defect_cons {p0 : String} {ps c : List String}
    (h0 : ¬((angleName p0).isSome = true ∧ (c.get? 0 = none ∨ c.get? 0 = some ""))) :
    ((∃ i p, (p0 :: ps).get? i = some p ∧ (angleName p).isSome = true ∧
        (c.get? i = none ∨ c.get? i = some "")) ↔
      (∃ j p, ps.get? j = some p ∧ (angleName p).isSome = true ∧
        (c.tail.get? j = none ∨ c.tail.get? j = some ""))) := by
  constructor
  · rintro ⟨i, p, hget, hang, hc⟩
    cases i with
    | zero =>
      have hp : p0 = p := by simpa using hget
      subst hp
      exact absurd ⟨hang, hc⟩ h0
    | succ j =>
      refine ⟨j, p, by simpa using hget, hang, ?_⟩
      rw [tail_get?]
      exact hc
  · rintro ⟨j, p, hget, hang, hc⟩
    refine ⟨j + 1, p, by simpa using hget, hang, ?_⟩
    rw [← tail_get?]
    exact hc

lemma parseArgumentsAux_error_iff :
    ∀ (r c : List String) (acc : List (String × String)),
      (parseArgumentsAux r c acc = .error .missingArgument ↔
        ∃ i p, r.get? i = some p ∧ (angleName p).isSome = true ∧
          (c.get? i = none ∨ c.get? i = some "")) := by
  intro r
  induction r with
  | nil =>
    intro c acc
    constructor
    · intro h
      simp [parseArgumentsAux] at h
    · rintro ⟨i, p, hget, -, -⟩
      simp at hget
  | cons p0 ps ih =>
    intro c acc
    cases hA : angleName p0 with
    | some nm =>
      cases hv : c.head? with
      | none =>
        rw [aux_cons_error (argStep_req_missing hA (.inl hv))]
        constructor
        · intro _
          exact ⟨0, p0, rfl, by rw [hA]; rfl, .inl (by rw [get?_zero, hv])⟩
        · intro _
          rfl
      | some v =>
        by_cases hve : v = ""
        · subst hve
          rw [aux_cons_error (argStep_req_missing hA (.inr hv))]
          constructor
          · intro _
            exact ⟨0, p0, rfl, by rw [hA]; rfl, .inr (by rw [get?_zero, hv])⟩
          · intro _
            rfl
        · rw [aux_cons_bind (argStep_req_ok hA hv hve), ih]
          refine (exists_defect_cons ?_).symm
          rintro ⟨-, hc | hc⟩
          · rw [get?_zero, hv] at hc
            cases hc
          · rw [get?_zero, hv] at hc
            exact hve (Option.some.inj hc)
    | none =>
      have hshift : ∀ acc', parseArgumentsAux ps c.tail acc' = .error .missingArgument ↔
          (∃ i p, (p0 :: ps).get? i = some p ∧ (angleName p).isSome = true ∧
            (c.get? i = none ∨ c.get? i = some "")) := by
        intro acc'
        rw [ih]
        refine (exists_defect_cons ?_).symm
        rintro ⟨hang, -⟩
        rw [hA] at hang
        cases hang
      cases hv : c.head? with
      | none =>
        rw [aux_cons_skip (argStep_opt_none hA hv)]
        exact hshift acc
      | some v =>
        by_cases hve : v = ""
        · subst hve
          rw [aux_cons_skip (argStep_opt_empty hA hv)]
          exact hshift acc
        · rw [aux_cons_bind (argStep_opt_bind hA hv hve)]
          exact hshift _

lemma parseArgumentsAux_lookup_preserved :
    ∀ (ps : List String) (c : List String) (acc m : List (String × String)) (k : String),
      parseArgumentsAux ps c acc = .ok m → k ∉ ps.map argKey →
      m.lookup k = acc.lookup k := by
  intro ps
  induction ps with
  | nil =>
    intro c acc m k h _
    have hacc : acc = m := Except.ok.inj h
    subst hacc
    rfl
  | cons p0 ps ih =>
    intro c acc m k h hk
    simp only [List.map_cons, List.mem_cons, not_or] at hk
    cases hA : angleName p0 with
    | some nm =>
      cases hv : c.head? with
      | none =>
        rw [aux_cons_error (argStep_req_missing hA (.inl hv))] at h
        cases h
      | some v =>
        by_cases hve : v = ""
        · subst hve
          rw [aux_cons_error (argStep_req_missing hA (.inr hv))] at h
          cases h
        · rw [aux_cons_bind (argStep_req_ok hA hv hve)] at h
          rw [ih _ _ _ _ h hk.2]
          have hne : ¬ k = nm := by
            rw [← argKey_angle hA]
            exact hk.1
          exact lookup_cons_ne hne
    | none =>
      cases hv : c.head? with
      | none =>
        rw [aux_cons_skip (argStep_opt_none hA hv)] at h
        exact ih _ _ _ _ h hk.2
      | some v =>
        by_cases hve : v = ""
        · subst hve
          rw [aux_cons_skip (argStep_opt_empty hA hv)] at h
          exact ih _ _ _ _ h hk.2
        · rw [aux_cons_bind (argStep_opt_bind hA hv hve)] at h
          rw [ih _ _ _ _ h hk.2]
          have hne : ¬ k = (squareName p0).getD p0 := by
            rw [← argKey_square hA]
            exact hk.1
          exact lookup_cons_ne hne

lemma parseArgumentsAux_bindings :
    ∀ (ps : List String) (c : List String) (acc m : List (String × String)),
      parseArgumentsAux ps c acc = .ok m → (ps.map argKey).Nodup →
      ∀ i p, ps.get? i = some p → argKey p ∉ acc.map Prod.fst →
        ((∀ nm, angleName p = some nm →
            ∃ v, c.get? i = some v ∧ v ≠ "" ∧ m.lookup nm = some v) ∧
         (angleName p = none →
            (c.get? i = none → m.lookup (argKey p) = none) ∧
            (∀ v, m.lookup (argKey p) = some v → c.get? i = some v))) := by
  intro ps
  induction ps with
  | nil =>
    intro c acc m h hnd i p hget hacc
    simp at hget
  | cons p0 ps ih =>
    intro c acc m h hnd i p hget hacc
    have hnd0 : argKey p0 ∉ ps.map argKey := (List.nodup_cons.mp hnd).1
    have hndps : (ps.map argKey).Nodup := (List.nodup_cons.mp hnd).2
    cases i with
    | zero =>
      have hp : p0 = p := by simpa using hget
      subst hp
      cases hA : angleName p0 with
      | some nm =>
        refine ⟨?_, ?_⟩
        · intro nm' hnm'
          have hnm : nm = nm' := Option.some.inj hnm'
          subst hnm
          cases hv : c.head? with
          | none =>
            rw [aux_cons_error (argStep_req_missing hA (.inl hv))] at h
            cases h
          | some v =>
            by_cases hve : v = ""
            · subst hve
              rw [aux_cons_error (argStep_req_missing hA (.inr hv))] at h
              cases h
            · rw [aux_cons_bind (argStep_req_ok hA hv hve)] at h
              refine ⟨v, by rw [get?_zero, hv], hve, ?_⟩
              have hkey : argKey p0 = nm := argKey_angle hA
              have hpres := parseArgumentsAux_lookup_preserved ps c.tail _ m nm h
                (by rw [← hkey]; exact hnd0)
              rw [hpres]
              exact lookup_cons_self
        · intro h0
          cases h0
      | none =>
        have hkey : argKey p0 = (squareName p0).getD p0 := argKey_square hA
        refine ⟨?_, ?_⟩
        · intro nm hnm
          cases hnm
        · intro _
          cases hv : c.head? with
          | none =>
            rw [aux_cons_skip (argStep_opt_none hA hv)] at h
            have hpres := parseArgumentsAux_lookup_preserved ps c.tail _ m (argKey p0) h hnd0
            have hnone : m.lookup (argKey p0) = none := by
              rw [hpres]
              exact lookup_eq_none_of_not_mem hacc
            exact ⟨fun _ => hnone, fun v hvv => absurd hvv (by rw [hnone]; exact fun hh => Option.noConfusion hh)⟩
          | some v =>
            by_cases hve : v = ""
            · subst hve
              rw [aux_cons_skip (argStep_opt_empty hA hv)] at h
              have hpres := parseArgumentsAux_lookup_preserved ps c.tail _ m (argKey p0) h hnd0
              have hnone : m.lookup (argKey p0) = none := by
                rw [hpres]
                exact lookup_eq_none_of_not_mem hacc
              refine ⟨fun hc0 => hnone, fun v' hvv => ?_⟩
              rw [hnone] at hvv
              cases hvv
            · rw [aux_cons_bind (argStep_opt_bind hA hv hve)] at h
              have hpres := parseArgumentsAux_lookup_preserved ps c.tail _ m (argKey p0) h hnd0
              have hsome : m.lookup (argKey p0) = some v := by
                rw [hpres, hkey]
                exact lookup_cons_self
              refine ⟨fun hc0 => ?_, fun v' hvv => ?_⟩
              · rw [get?_zero, hv] at hc0
                cases hc0
              · rw [hsome] at hvv
                have : v = v' := Option.some.inj hvv
                subst this
                rw [get?_zero, hv]
    | succ j =>
      have hget' : ps.get? j = some p := by simpa using hget
      have hmem : argKey p ∈ ps.map argKey :=
        List.mem_map_of_mem _ (List.get?_mem hget')
      have hne0 : ¬ argKey p = argKey p0 := fun he => hnd0 (he ▸ hmem)
      have hconc : ∀ acc', parseArgumentsAux ps c.tail acc' = .ok m →
          argKey p ∉ acc'.map Prod.fst →
          ((∀ nm, angleName p = some nm →
              ∃ v, c.get? (j + 1) = some v ∧ v ≠ "" ∧ m.lookup nm = some v) ∧
           (angleName p = none →
              (c.get? (j + 1) = none → m.lookup (argKey p) = none) ∧
              (∀ v, m.lookup (argKey p) = some v → c.get? (j + 1) = some v))) := by
        intro acc' h' hacc'
        have hres := ih c.tail acc' m h' hndps j p hget' hacc'
        rw [← tail_get? c j]
        exact hres
      cases hA : angleName p0 with
      | some nm =>
        cases hv : c.head? with
        | none =>
          rw [aux_cons_error (argStep_req_missing hA (.inl hv))] at h
          cases h
        | some v =>
          by_cases hve : v = ""
          · subst hve
            rw [aux_cons_error (argStep_req_missing hA (.inr hv))] at h
            cases h
          · rw [aux_cons_bind (argStep_req_ok hA hv hve)] at h
            refine hconc _ h ?_
            simp only [List.map_cons, List.mem_cons, not_or]
            refine ⟨?_, hacc⟩
            rw [← argKey_angle hA]
            exact hne0
      | none =>
        cases hv : c.head? with
        | none =>
          rw [aux_cons_skip (argStep_opt_none hA hv)] at h
          exact hconc _ h hacc
        | some v =>
          by_cases hve : v = ""
          · subst hve
            rw [aux_cons_skip (argStep_opt_empty hA hv)] at h
            exact hconc _ h hacc
          · rw [aux_cons_bind (argStep_opt_bind hA hv hve)] at h
            refine hconc _ h ?_
            simp only [List.map_cons, List.mem_cons, not_or]
            refine ⟨?_, hacc⟩
            rw [← argKey_square hA]
            exact hne0

lemma parseArgumentsAux_take :
    ∀ (r c : List String) (acc : List (String × String)),
      parseArgumentsAux r c acc = parseArgumentsAux r (c.take r.length) acc := by
  intro r
  induction r with
  | nil =>
    intro c acc
    rfl
  | cons p0 ps ih =>
    intro c acc
    simp only [List.length_cons]
    have hh : (c.take (ps.length + 1)).head? = c.head? := take_head? c ps.length
    cases hA : angleName p0 with
    | some nm =>
      cases hv : c.head? with
      | none =>
        rw [aux_cons_error (argStep_req_missing hA (.inl hv)),
          aux_cons_error (argStep_req_missing hA (.inl (hh.trans hv)))]
      | some v =>
        by_cases hve : v = ""
        · subst hve
          rw [aux_cons_error (argStep_req_missing hA (.inr hv)),
            aux_cons_error (argStep_req_missing hA (.inr (hh.trans hv)))]
        · rw [aux_cons_bind (argStep_req_ok hA hv hve),
            aux_cons_bind (argStep_req_ok hA (hh.trans hv) hve),
            take_tail]
          exact ih c.tail _
    | none =>
      cases hv : c.head? with
      | none =>
        rw [aux_cons_skip (argStep_opt_none hA hv),
          aux_cons_skip (argStep_opt_none hA (hh.trans hv)),
          take_tail]
        exact ih c.tail _
      | some v =>
        by_cases hve : v = ""
        · subst hve
          rw [aux_cons_skip (argStep_opt_empty hA hv),
            aux_cons_skip (argStep_opt_empty hA (hh.trans hv)),
            take_tail]
          exact ih c.tail _
        · rw [aux_cons_bind (argStep_opt_bind hA hv hve),
            aux_cons_bind (argStep_opt_bind hA (hh.trans hv) hve),
            take_tail]
          exact ih c.tail _

/-! ### Claim C2 -/

/-- C2: argument binding is positional.  For the i-th route pattern and
the i-th invocation positional `v`: when the whole parse succeeds and
the patterns' output keys are distinct, a required pattern `<name>`
binds `name` to the raw string `v` (unchanged, no casting) with `v`
present and non-empty, and the parse raises `MissingArgument` exactly
when some required position has an absent or empty `v`; an optional (or
plain) pattern emits its key only when `v` is present, and emits no key
at all when `v` is absent; and invocation positionals beyond the
template's pattern count are silently ignored (the result only depends
on the first `r.length` positionals). -/
theorem C2_positional_argument_binding (r c : List String) :
    ((_parseArguments r c = .error .missingArgument) ↔
      ∃ i p, r.get? i = some p ∧ (angleName p).isSome = true ∧
        (c.get? i = none ∨ c.get? i = some "")) ∧
    (_parseArguments r c = _parseArguments r (c.take r.length)) ∧
    (∀ m, _parseArguments r c = .ok m → (r.map argKey).Nodup →
      ∀ i p, r.get? i = some p →
        ((∀ nm, angleName p = some nm →
            ∃ v, c.get? i = some v ∧ v ≠ "" ∧ m.lookup nm = some v) ∧
         (angleName p = none →
            (c.get? i = none → m.lookup (argKey p) = none) ∧
            (∀ v, m.lookup (argKey p) = some v → c.get? i = some v)))) := by
  refine ⟨parseArgumentsAux_error_iff r c [], parseArgumentsAux_take r c [], ?_⟩
  intro m h hnd i p hget
  exact parseArgumentsAux_bindings r c [] m h hnd i p hget (by simp)

/-- Witness for C2: `command <a>` with no positional raises
`MissingArgument`; `command <a> [b] c` against `x y z EXTRA` binds
`a` to the raw `x` (the extra positional being ignored). -/
theorem C2_witness :
    _parseArguments ["<a>", "[b]"] [] = .error .missingArgument ∧
    (∃ v, (["x", "y", "z", "EXTRA"] : List String).get? 0 = some v ∧ v ≠ "" ∧
      ([("c", "z"), ("b", "y"), ("a", "x")] : List (String × String)).lookup "a" = some v) :=
  ⟨(C2_positional_argument_binding ["<a>", "[b]"] []).1.mpr
      ⟨0, "<a>", rfl, by decide, .inl rfl⟩,
    ((C2_positional_argument_binding ["<a>", "[b]", "c"] ["x", "y", "z", "EXTRA"]).2.2
      [("c", "z"), ("b", "y"), ("a", "x")] rfl (by decide) 0 "<a>" rfl).1 "a" rfl⟩

end Consoler
